import Mathlib

/-!
# A shallow embedding of `MessageRouter` (src/message_router.js)

The JavaScript class `MessageRouter` is a hierarchical message routing
system with path locking, per-path queues for locked routes and a bounded
global priority queue.  This file embeds its state and operations as pure
Lean functions (strings are modelled by `String`, the string scanning in
`normalizePath` works on the underlying character list, the two JS `Map`s
become association lists with unique keys, and listener callbacks are
replaced by a recorded trace of deliveries) and proves the behavioural
claims about the router.
-/

namespace MessageRouter

/-- The four lock modes of `MessageRouter.LockMode`. -/
inductive LockMode where
  | STRICT
  | EXCLUSIVE
  | ANY_SENDER
  | ANY_RECEIVER
deriving DecidableEq, Repr

/-- A registered listener (the JS listener object; the callback is not
stored — deliveries to a listener are recorded in a trace — and
`createdAt` is introspection only and not modelled). -/
structure Listener where
  path : String
  id : Nat
  ownerID : String
  active : Bool
deriving DecidableEq, Repr

/-- A message (JS message object; `timestamp` is introspection only and
not modelled). -/
structure Message where
  path : String
  data : String
  senderID : String
  receiverID : String
  messageId : Nat
deriving DecidableEq, Repr

/-- A lock record as created by `lockPath` (`timestamp` not modelled). -/
structure Lock where
  path : String
  mode : LockMode
  senderID : String
  senderOwner : String
  receiverID : String
  receiverOwner : String
  finalized : Bool
deriving DecidableEq, Repr

/-- A queue entry: `{ message, senderPath, priority }`. -/
structure QueuedMsg where
  message : Message
  senderPath : String
  priority : Int
deriving DecidableEq, Repr

/-- One delivery event: the JS code calls
`listener.callback(message, targetPath, message.senderID)`. -/
structure Delivery where
  listenerId : Nat
  message : Message
  targetPath : String
deriving DecidableEq, Repr

/-- `Map.get` on an association list with unique keys: the value of the
first entry with the given key. -/
def getAssoc {α : Type} (l : List (String × α)) (k : String) : Option α :=
  match l with
  | [] => none
  | p :: rest => if p.1 == k then some p.2 else getAssoc rest k

/-- `Map.set`: replace the entry of an existing key, else append. -/
def setAssoc {α : Type} (l : List (String × α)) (k : String) (v : α) :
    List (String × α) :=
  if l.any (fun p => p.1 == k) then
    l.map (fun p => if p.1 == k then (k, v) else p)
  else l ++ [(k, v)]

/-- `Map.delete`. -/
def delAssoc {α : Type} (l : List (String × α)) (k : String) :
    List (String × α) :=
  l.filter (fun p => p.1 != k)

/-- The full router state (`this` of the JS class). -/
structure RouterState where
  listeners : List Listener
  messageQueue : List QueuedMsg
  pathLocks : List (String × Lock)
  lockedPathQueues : List (String × List QueuedMsg)
  nextListenerId : Nat
  nextMessageId : Nat
deriving DecidableEq, Repr

/-- The constructor `new MessageRouter()`. -/
def initialRouter : RouterState :=
  { listeners := []
    messageQueue := []
    pathLocks := []
    lockedPathQueues := []
    nextListenerId := 1
    nextMessageId := 1 }

/-- `this.MAX_QUEUE_SIZE = 50`. -/
def MAX_QUEUE_SIZE : Nat := 50

/-- `normalizePath` on the character list of the path: drop a single
trailing `/` when the length exceeds 1, then prepend `/` when the result
is empty or does not start with `/`. -/
def normalizeChars (l : List Char) : List Char :=
  let n := if 1 < l.length ∧ l.getLast? = some '/' then l.dropLast else l
  if n = [] ∨ n.head? ≠ some '/' then '/' :: n else n

/-- `normalizePath(path)` (src/message_router.js lines 28–42). -/
def normalizePath (path : String) : String :=
  ⟨normalizeChars path.data⟩

/-- `s.lastIndexOf('/')`: the greatest index of `/`, `-1` when absent. -/
def lastIndexOfSlash (s : String) : Int :=
  (s.data.enum.foldl
    (fun acc p => if p.2 = '/' then Int.ofNat p.1 else acc) (-1))

/-- `getParentPath(path)` (lines 47–54). -/
def getParentPath (path : String) : String :=
  if path = "/" then ""
  else
    let lastSlash := lastIndexOfSlash path
    if lastSlash = -1 ∨ lastSlash = 0 then "/"
    else ⟨path.data.take lastSlash.toNat⟩

/-- The `while (currentPath !== '/')` loop of `getBubblingPaths`,
with explicit fuel (each step shortens the path, so
`current.length + 2` steps suffice). -/
def bubbleLoop : Nat → String → List String
  | 0, _ => []
  | fuel + 1, current =>
    if current = "/" then []
    else
      let next := getParentPath current
      if next ≠ "" then next :: bubbleLoop fuel next
      else bubbleLoop fuel next

/-- `getBubblingPaths(path)` (lines 59–73). -/
def getBubblingPaths (path : String) : List String :=
  let current := normalizePath path
  current :: bubbleLoop (current.length + 2) current

/-- `validateMessageLock(message)` (lines 78–112). -/
def validateMessageLock (s : RouterState) (message : Message) : Bool :=
  let normalizedPath := normalizePath message.path
  match getAssoc s.pathLocks normalizedPath with
  | none => true
  | some lock =>
    match lock.mode with
    | LockMode.STRICT =>
      if lock.senderID ≠ "" ∧ lock.senderID ≠ message.senderID then false
      else if lock.receiverID ≠ "" ∧ lock.receiverID ≠ message.receiverID then false
      else true
    | LockMode.EXCLUSIVE =>
      if lock.senderID ≠ "" ∧ lock.senderID ≠ message.senderID then false
      else if lock.receiverID ≠ "" ∧ lock.receiverID ≠ message.receiverID then false
      else true
    | LockMode.ANY_SENDER =>
      if lock.receiverID ≠ "" ∧ lock.receiverID ≠ message.receiverID then false
      else true
    | LockMode.ANY_RECEIVER =>
      if lock.senderID ≠ "" ∧ lock.senderID ≠ message.senderID then false
      else true

/-- The fan-out part of `processMessageImmediate`: for each bubbling path
in order, every active listener on exactly that path fires, subject to the
receiver filter; the callback invocation is recorded as a `Delivery`. -/
def fanOut (listeners : List Listener) (message : Message)
    (targetPaths : List String) : List Delivery :=
  targetPaths.foldl
    (fun acc targetPath =>
      acc ++ listeners.filterMap (fun listener =>
        if listener.path = targetPath ∧ listener.active then
          if message.receiverID ≠ "" ∧ toString listener.id ≠ message.receiverID then
            none
          else
            some ⟨listener.id, message, targetPath⟩
        else none)) []

/-- `processMessageImmediate(message, senderPath)` (lines 117–156).  The
function mutates nothing; it returns the JS boolean result and the trace
of listener-callback invocations. -/
def processMessageImmediate (s : RouterState) (message : Message)
    (_senderPath : String := "") : Bool × List Delivery :=
  let normalizedPath := normalizePath message.path
  if (getAssoc s.pathLocks normalizedPath).isSome then (false, [])
  else if ¬ validateMessageLock s message then (false, [])
  else (true, fanOut s.listeners message (getBubblingPaths message.path))

/-- `addListener(path, callback, ownerID)` (lines 165–182): returns the
fresh id together with the new state. -/
def addListener (s : RouterState) (path : String) (ownerID : String := "") :
    Nat × RouterState :=
  let normalizedPath := normalizePath path
  let id := s.nextListenerId
  (id,
    { s with
        listeners := s.listeners ++
          [{ path := normalizedPath, id := id, ownerID := ownerID, active := true }]
        nextListenerId := id + 1 })

/-- `removeListener(listenerId)` (lines 187–196): splice out the first
listener with that id. -/
def removeListener (s : RouterState) (listenerId : Nat) : Bool × RouterState :=
  if s.listeners.any (fun l => l.id == listenerId) then
    (true, { s with listeners := s.listeners.eraseP (fun l => l.id == listenerId) })
  else (false, s)

/-- `removeListeners(listenerIds)` (lines 201–209). -/
def removeListeners (s : RouterState) (listenerIds : List Nat) :
    Nat × RouterState :=
  listenerIds.foldl
    (fun acc id =>
      let r := removeListener acc.2 id
      (acc.1 + (if r.1 then 1 else 0), r.2))
    (0, s)

/-- `removeListenersByPath(path)` (lines 214–227). -/
def removeListenersByPath (s : RouterState) (path : String) :
    Nat × RouterState :=
  let normalizedPath := normalizePath path
  let remaining := s.listeners.filter (fun l => l.path ≠ normalizedPath)
  (s.listeners.length - remaining.length, { s with listeners := remaining })

/-- `removeListenersByOwner(ownerID)` (lines 232–244). -/
def removeListenersByOwner (s : RouterState) (ownerID : String) :
    Nat × RouterState :=
  let remaining := s.listeners.filter (fun l => l.ownerID ≠ ownerID)
  (s.listeners.length - remaining.length, { s with listeners := remaining })

/-- `find` + in-place mutation of `listener.active`: update the first
listener with the given id. -/
def setActiveFirst (listenerId : Nat) (active : Bool) :
    List Listener → List Listener
  | [] => []
  | l :: ls =>
    if l.id = listenerId then { l with active := active } :: ls
    else l :: setActiveFirst listenerId active ls

/-- `setListenerActive(listenerId, active)` (lines 249–257). -/
def setListenerActive (s : RouterState) (listenerId : Nat) (active : Bool) :
    Bool × RouterState :=
  if s.listeners.any (fun l => l.id == listenerId) then
    (true, { s with listeners := setActiveFirst listenerId active s.listeners })
  else (false, s)

/-- The lock record built by `lockPath` (lines 277–286):
`senderOwner = senderID ? ownerID : ''`, symmetrically for the
receiver. -/
def lockRecord (normalizedPath : String) (mode : LockMode)
    (ownerID senderID receiverID : String) : Lock :=
  { path := normalizedPath
    mode := mode
    senderID := senderID
    senderOwner := if senderID ≠ "" then ownerID else ""
    receiverID := receiverID
    receiverOwner := if receiverID ≠ "" then ownerID else ""
    finalized := false }

/-- The store step of a successful `lockPath` (lines 288–293): set the
lock record and create a queue for the path unless one exists. -/
def lockPathSet (s : RouterState) (normalizedPath : String) (mode : LockMode)
    (ownerID senderID receiverID : String) : RouterState :=
  let lock : Lock := lockRecord normalizedPath mode ownerID senderID receiverID
  let s1 := { s with pathLocks := setAssoc s.pathLocks normalizedPath lock }
  if (getAssoc s1.lockedPathQueues normalizedPath).isSome then s1
  else
    { s1 with
        lockedPathQueues := setAssoc s1.lockedPathQueues normalizedPath [] }

/-- `lockPath(path, mode, ownerID, senderID, receiverID)` (lines 267–297). -/
def lockPath (s : RouterState) (path : String) (mode : LockMode)
    (ownerID : String) (senderID : String := "") (receiverID : String := "") :
    Bool × RouterState :=
  let normalizedPath := normalizePath path
  match getAssoc s.pathLocks normalizedPath with
  | some existing =>
    if existing.finalized then (false, s)
    else (true, lockPathSet s normalizedPath mode ownerID senderID receiverID)
  | none => (true, lockPathSet s normalizedPath mode ownerID senderID receiverID)

/-- A replay/drain loop: process each queue entry in order through
`processMessageImmediate` against the fixed state `s`, concatenating the
delivery traces (the JS loops in `unlockPath` and `processQueue`). -/
def drainLoop (s : RouterState) : List QueuedMsg → List Delivery
  | [] => []
  | qm :: rest =>
    (processMessageImmediate s qm.message qm.senderPath).2 ++ drainLoop s rest

/-- `unlockPath(path, ownerID)` (lines 304–339): on success the lock is
deleted first, then the path's queue is replayed in FIFO order through
`processMessageImmediate`, then the queue entry is deleted. -/
def unlockPath (s : RouterState) (path : String) (ownerID : String) :
    Bool × RouterState × List Delivery :=
  let normalizedPath := normalizePath path
  match getAssoc s.pathLocks normalizedPath with
  | none => (false, s, [])
  | some lock =>
    if lock.finalized then (false, s, [])
    else if lock.senderOwner ≠ ownerID ∧ lock.receiverOwner ≠ ownerID then
      (false, s, [])
    else
      let s1 := { s with pathLocks := delAssoc s.pathLocks normalizedPath }
      let queuedMessages := (getAssoc s1.lockedPathQueues normalizedPath).getD []
      let trace := drainLoop s1 queuedMessages
      (true,
        { s1 with lockedPathQueues := delAssoc s1.lockedPathQueues normalizedPath },
        trace)

/-- `finalizeLock(path, ownerID)` (lines 344–360). -/
def finalizeLock (s : RouterState) (path : String) (ownerID : String) :
    Bool × RouterState :=
  let normalizedPath := normalizePath path
  match getAssoc s.pathLocks normalizedPath with
  | none => (false, s)
  | some lock =>
    if lock.senderOwner ≠ ownerID ∧ lock.receiverOwner ≠ ownerID then (false, s)
    else
      (true,
        { s with
            pathLocks := setAssoc s.pathLocks normalizedPath
              { lock with finalized := true } })

/-- `getLockStatus(path)` (lines 365–368). -/
def getLockStatus (s : RouterState) (path : String) : Option Lock :=
  getAssoc s.pathLocks (normalizePath path)

/-- `sendMessage(path, data, senderID, receiverID, queueIfLocked)`
(lines 378–407). -/
def sendMessage (s : RouterState) (path dataStr : String)
    (senderID : String := "") (receiverID : String := "")
    (queueIfLocked : Bool := true) : Bool × RouterState × List Delivery :=
  let normalizedPath := normalizePath path
  let message : Message :=
    { path := normalizedPath, data := dataStr, senderID := senderID
      receiverID := receiverID, messageId := s.nextMessageId }
  let s0 := { s with nextMessageId := s.nextMessageId + 1 }
  if (getAssoc s0.pathLocks normalizedPath).isSome then
    if queueIfLocked then
      let queue := (getAssoc s0.lockedPathQueues normalizedPath).getD []
      (false,
        { s0 with
            lockedPathQueues := setAssoc s0.lockedPathQueues normalizedPath
              (queue ++ [{ message := message, senderPath := "", priority := 0 }]) },
        [])
    else (false, s0, [])
  else
    let r := processMessageImmediate s0 message ""
    (r.1, s0, r.2)

/-- `queueMessage(path, data, senderID, receiverID, priority)`
(lines 412–434): drop the oldest entry when the queue is full, then
append. -/
def queueMessage (s : RouterState) (path dataStr : String)
    (senderID : String := "") (receiverID : String := "")
    (priority : Int := 0) : Bool × RouterState :=
  let q0 :=
    if MAX_QUEUE_SIZE ≤ s.messageQueue.length then s.messageQueue.drop 1
    else s.messageQueue
  let message : Message :=
    { path := normalizePath path, data := dataStr, senderID := senderID
      receiverID := receiverID, messageId := s.nextMessageId }
  (true,
    { s with
        messageQueue := q0 ++ [{ message := message, senderPath := "", priority := priority }]
        nextMessageId := s.nextMessageId + 1 })

/-- One insertion step of the stable descending sort: `x` goes after
every entry of strictly greater priority and before the first entry whose
priority is at most its own (so, combined with `List.foldr`, an earlier
entry precedes later entries of equal priority). -/
def insertDesc (x : QueuedMsg) : List QueuedMsg → List QueuedMsg
  | [] => [x]
  | y :: ys =>
    if y.priority ≤ x.priority then x :: y :: ys else y :: insertDesc x ys

/-- The stable sort by descending priority performed by
`this.messageQueue.sort((a, b) => b.priority - a.priority)`. -/
def sortDesc (l : List QueuedMsg) : List QueuedMsg :=
  l.foldr insertDesc []

/-- `processQueue()` (lines 439–447): sort by descending priority, then
shift-and-dispatch until the queue is empty. -/
def processQueue (s : RouterState) : RouterState × List Delivery :=
  ({ s with messageQueue := [] }, drainLoop s (sortDesc s.messageQueue))

/-- `getQueueSize()` (lines 477–479). -/
def getQueueSize (s : RouterState) : Nat :=
  s.messageQueue.length

/-- `getLockedQueueSize()` (lines 484–490). -/
def getLockedQueueSize (s : RouterState) : Nat :=
  (s.lockedPathQueues.map (fun p => p.2.length)).sum

/-- `clearListeners()` (lines 507–510). -/
def clearListeners (s : RouterState) : RouterState :=
  { s with listeners := [] }

/-- `clearQueue()` (lines 515–518). -/
def clearQueue (s : RouterState) : RouterState :=
  { s with messageQueue := [] }

/-- `clearLocks()` (lines 523–527). -/
def clearLocks (s : RouterState) : RouterState :=
  { s with pathLocks := [], lockedPathQueues := [] }

/-- The state-changing public operations of the router, as an inductive
alphabet, so that invariants can be stated over arbitrary call
sequences. -/
inductive RouterOp where
  | addListener (path ownerID : String)
  | removeListener (id : Nat)
  | removeListeners (ids : List Nat)
  | removeListenersByPath (path : String)
  | removeListenersByOwner (ownerID : String)
  | setListenerActive (id : Nat) (active : Bool)
  | lockPath (path : String) (mode : LockMode) (ownerID senderID receiverID : String)
  | unlockPath (path ownerID : String)
  | finalizeLock (path ownerID : String)
  | sendMessage (path dataStr senderID receiverID : String) (queueIfLocked : Bool)
  | queueMessage (path dataStr senderID receiverID : String) (priority : Int)
  | processQueue
  | clearListeners
  | clearQueue
  | clearLocks
deriving DecidableEq, Repr

/-- The state transition of each public operation (return values and
delivery traces discarded). -/
def applyOp (s : RouterState) : RouterOp → RouterState
  | .addListener path ownerID => (addListener s path ownerID).2
  | .removeListener id => (removeListener s id).2
  | .removeListeners ids => (removeListeners s ids).2
  | .removeListenersByPath path => (removeListenersByPath s path).2
  | .removeListenersByOwner ownerID => (removeListenersByOwner s ownerID).2
  | .setListenerActive id active => (setListenerActive s id active).2
  | .lockPath path mode ownerID senderID receiverID =>
      (lockPath s path mode ownerID senderID receiverID).2
  | .unlockPath path ownerID => (unlockPath s path ownerID).2.1
  | .finalizeLock path ownerID => (finalizeLock s path ownerID).2
  | .sendMessage path dataStr senderID receiverID queueIfLocked =>
      (sendMessage s path dataStr senderID receiverID queueIfLocked).2.1
  | .queueMessage path dataStr senderID receiverID priority =>
      (queueMessage s path dataStr senderID receiverID priority).2
  | .processQueue => (processQueue s).1
  | .clearListeners => clearListeners s
  | .clearQueue => clearQueue s
  | .clearLocks => clearLocks s

/-! ## Association-list (JS `Map`) lemmas -/

theorem getAssoc_nil {α : Type} (k : String) :
    getAssoc ([] : List (String × α)) k = none := rfl

theorem getAssoc_not_any {α : Type} (l : List (String × α)) (k : String)
    (h : l.any (fun p => p.1 == k) = false) : getAssoc l k = none := by
  induction l with
  | nil => rfl
  | cons hd tl ih =>
    simp only [List.any_cons, Bool.or_eq_false_iff] at h
    simp only [getAssoc, h.1, if_false]
    exact ih h.2

theorem getAssoc_map_replace_self {α : Type} (l : List (String × α))
    (k : String) (v : α) (h : l.any (fun p => p.1 == k) = true) :
    getAssoc (l.map (fun p => if p.1 == k then (k, v) else p)) k = some v := by
  induction l with
  | nil => simp at h
  | cons hd tl ih =>
    by_cases hk : (hd.1 == k) = true
    · simp [getAssoc, hk]
    · have hkf : (hd.1 == k) = false := by simpa using hk
      simp only [List.any_cons, hkf, Bool.false_or] at h
      simp only [List.map_cons, hkf, Bool.false_eq_true, if_false, getAssoc]
      exact ih h

theorem getAssoc_map_replace_ne {α : Type} (l : List (String × α))
    (k k' : String) (v : α) (hne : k' ≠ k) :
    getAssoc (l.map (fun p => if p.1 == k then (k, v) else p)) k' =
      getAssoc l k' := by
  have h2 : ((k : String) == k') = false := by
    simp only [beq_eq_false_iff_ne]
    exact fun hc => hne hc.symm
  induction l with
  | nil => rfl
  | cons hd tl ih =>
    by_cases hk : (hd.1 == k) = true
    · have h1 : hd.1 = k := by simpa using hk
      have h3 : (hd.1 == k') = false := by rw [h1]; exact h2
      simp only [List.map_cons, hk, if_true, getAssoc, h2, h3,
        Bool.false_eq_true, if_false]
      exact ih
    · have hkf : (hd.1 == k) = false := by simpa using hk
      simp only [List.map_cons, hkf, Bool.false_eq_true, if_false, getAssoc]
      by_cases hk' : (hd.1 == k') = true
      · simp [hk']
      · have hkf' : (hd.1 == k') = false := by simpa using hk'
        simp only [hkf', Bool.false_eq_true, if_false]
        exact ih

theorem getAssoc_append {α : Type} (l m : List (String × α)) (k : String) :
    getAssoc (l ++ m) k =
      match getAssoc l k with
      | some v => some v
      | none => getAssoc m k := by
  induction l with
  | nil => simp [getAssoc]
  | cons hd tl ih =>
    by_cases hk : (hd.1 == k) = true
    · simp [getAssoc, hk]
    · simp only [List.cons_append, getAssoc, hk, if_false]
      exact ih

theorem getAssoc_setAssoc_self {α : Type} (l : List (String × α))
    (k : String) (v : α) : getAssoc (setAssoc l k v) k = some v := by
  unfold setAssoc
  by_cases h : (l.any (fun p => p.1 == k)) = true
  · simp only [h, if_true]
    exact getAssoc_map_replace_self l k v h
  · have hf : (l.any (fun p => p.1 == k)) = false := Bool.eq_false_iff.mpr h
    simp only [hf, Bool.false_eq_true, if_false]
    rw [getAssoc_append, getAssoc_not_any l k hf]
    simp [getAssoc]

theorem getAssoc_setAssoc_ne {α : Type} (l : List (String × α))
    (k k' : String) (v : α) (hne : k' ≠ k) :
    getAssoc (setAssoc l k v) k' = getAssoc l k' := by
  unfold setAssoc
  by_cases h : (l.any (fun p => p.1 == k)) = true
  · simp only [h, if_true]
    exact getAssoc_map_replace_ne l k k' v hne
  · have hf : (l.any (fun p => p.1 == k)) = false := Bool.eq_false_iff.mpr h
    simp only [hf, Bool.false_eq_true, if_false]
    rw [getAssoc_append]
    have h2 : getAssoc [(k, v)] k' = none := by
      have hkk : ((k : String) == k') = false := by
        simp only [beq_eq_false_iff_ne]
        exact fun hc => hne hc.symm
      simp [getAssoc, hkk]
    rw [h2]
    cases hc : getAssoc l k' <;> rfl

theorem getAssoc_delAssoc_self {α : Type} (l : List (String × α))
    (k : String) : getAssoc (delAssoc l k) k = none := by
  induction l with
  | nil => rfl
  | cons hd tl ih =>
    by_cases hk : (hd.1 == k) = true
    · simpa [delAssoc, List.filter_cons, hk, bne] using ih
    · have hb : (hd.1 != k) = true := by simp [bne, hk]
      simp only [delAssoc, List.filter_cons, hb, if_true, getAssoc, hk, if_false]
      simpa [delAssoc] using ih

theorem getAssoc_delAssoc_ne {α : Type} (l : List (String × α))
    (k k' : String) (hne : k' ≠ k) :
    getAssoc (delAssoc l k) k' = getAssoc l k' := by
  induction l with
  | nil => rfl
  | cons hd tl ih =>
    by_cases hk : (hd.1 == k) = true
    · have h1 : hd.1 = k := by simpa using hk
      have h3 : (hd.1 == k') = false := by
        simp only [beq_eq_false_iff_ne, h1]
        exact fun hc => hne hc.symm
      simp only [delAssoc, List.filter_cons, hk, bne, Bool.not_true, if_false,
        getAssoc, h3]
      simpa [delAssoc] using ih
    · have hb : (hd.1 != k) = true := by simp [bne, hk]
      simp only [delAssoc, List.filter_cons, hb, if_true, getAssoc]
      by_cases hk' : (hd.1 == k') = true
      · simp [hk']
      · simp only [hk', if_false]
        simpa [delAssoc] using ih

/-! ## Basic dispatch lemmas -/

theorem validateMessageLock_of_unlocked (s : RouterState) (m : Message)
    (h : getAssoc s.pathLocks (normalizePath m.path) = none) :
    validateMessageLock s m = true := by
  simp [validateMessageLock, h]

/-- Claim C1: `processMessageImmediate` returns `false` exactly when a
lock record exists on the message's normalized path — whatever the lock's
mode and sender/receiver restrictions are — and returns `true` exactly
when that lock check passed, for every listener set (so independently of
whether any listener matched or fired). -/
theorem processMessageImmediate_true_iff_unlocked (s : RouterState)
    (m : Message) (sp : String) :
    (processMessageImmediate s m sp).1 = true ↔
      getAssoc s.pathLocks (normalizePath m.path) = none := by
  unfold processMessageImmediate
  cases h : getAssoc s.pathLocks (normalizePath m.path) with
  | none =>
    rw [validateMessageLock_of_unlocked s m h]
    simp [h]
  | some lock =>
    simp [h]

/-! ## Path normalization: claim C2 -/

theorem getLast?_cons_of_ne_nil {α : Type} (a : α) (l : List α)
    (h : l ≠ []) : (a :: l).getLast? = l.getLast? := by
  cases l with
  | nil => exact absurd rfl h
  | cons b t => exact List.getLast?_cons_cons

theorem normalizeChars_pos (l : List Char)
    (hc : 1 < l.length ∧ l.getLast? = some '/') :
    normalizeChars l =
      if l.dropLast = [] ∨ (l.dropLast).head? ≠ some '/' then '/' :: l.dropLast
      else l.dropLast := by
  unfold normalizeChars
  rw [if_pos hc]

theorem normalizeChars_neg (l : List Char)
    (hc : ¬ (1 < l.length ∧ l.getLast? = some '/')) :
    normalizeChars l =
      if l = [] ∨ l.head? ≠ some '/' then '/' :: l else l := by
  unfold normalizeChars
  rw [if_neg hc]

theorem normalizeChars_head (l : List Char) :
    (normalizeChars l).head? = some '/' := by
  by_cases hc : 1 < l.length ∧ l.getLast? = some '/'
  · rw [normalizeChars_pos l hc]
    by_cases hd : l.dropLast = [] ∨ (l.dropLast).head? ≠ some '/'
    · rw [if_pos hd]; exact List.head?_cons
    · rw [if_neg hd]; push_neg at hd; exact hd.2
  · rw [normalizeChars_neg l hc]
    by_cases hd : l = [] ∨ l.head? ≠ some '/'
    · rw [if_pos hd]; exact List.head?_cons
    · rw [if_neg hd]; push_neg at hd; exact hd.2

theorem normalizeChars_last (l : List Char) (h : ¬ ['/', '/'] <:+ l) :
    normalizeChars l = ['/'] ∨ (normalizeChars l).getLast? ≠ some '/' := by
  by_cases hc : 1 < l.length ∧ l.getLast? = some '/'
  · obtain ⟨init, hinit⟩ := List.getLast?_eq_some_iff.mp hc.2
    have hdrop : l.dropLast = init := by
      rw [hinit]; exact List.dropLast_concat
    have hinitne : init ≠ [] := by
      intro hnil
      have := hc.1
      rw [hinit, hnil] at this
      simp at this
    have hlast : init.getLast? ≠ some '/' := by
      intro hl
      obtain ⟨init2, hinit2⟩ := List.getLast?_eq_some_iff.mp hl
      apply h
      rw [hinit, hinit2, List.append_assoc]
      exact List.suffix_append init2 (['/'] ++ ['/'])
    rw [normalizeChars_pos l hc, hdrop]
    by_cases hd : init = [] ∨ init.head? ≠ some '/'
    · rw [if_pos hd]
      right
      rw [getLast?_cons_of_ne_nil _ _ hinitne]
      exact hlast
    · rw [if_neg hd]
      right
      exact hlast
  · rw [normalizeChars_neg l hc]
    by_cases hlast : l.getLast? = some '/'
    · have hlen : ¬ 1 < l.length := fun hl => hc ⟨hl, hlast⟩
      have hne : l ≠ [] := by
        intro hnil; rw [hnil] at hlast; simp at hlast
      have hlen1 : l.length = 1 := by
        have h0 : 0 < l.length := List.length_pos.mpr hne
        omega
      obtain ⟨c, hc1⟩ := List.length_eq_one.mp hlen1
      have hcc : c = '/' := by
        rw [hc1] at hlast; simpa using hlast
      rw [hc1, hcc]
      simp
    · by_cases hd : l = [] ∨ l.head? ≠ some '/'
      · rw [if_pos hd]
        cases l with
        | nil => left; rfl
        | cons a t =>
          right
          rw [getLast?_cons_of_ne_nil '/' (a :: t) (List.cons_ne_nil a t)]
          exact hlast
      · rw [if_neg hd]
        right
        exact hlast

theorem normalizeChars_fixpoint (l : List Char) (h1 : l.head? = some '/')
    (h2 : l = ['/'] ∨ l.getLast? ≠ some '/') : normalizeChars l = l := by
  rcases h2 with rfl | h2
  · decide
  · have hc : ¬ (1 < l.length ∧ l.getLast? = some '/') := fun hx => h2 hx.2
    rw [normalizeChars_neg l hc]
    have hne : l ≠ [] := by
      intro hnil; rw [hnil] at h1; simp at h1
    have hcond : ¬ (l = [] ∨ l.head? ≠ some '/') := by
      push_neg
      exact ⟨hne, h1⟩
    rw [if_neg hcond]

/-- Claim C2 counterexample: `normalizePath` is not idempotent on every
input string — on `"a//"` one pass gives `"/a/"` but a second pass gives
`"/a"`. -/
theorem normalizePath_not_idempotent_on_double_slash :
    normalizePath (normalizePath "a//") ≠ normalizePath "a//" := by
  decide

/-- Claim C2 (amended): `normalizePath` is idempotent on every input
string that does not end with two consecutive slashes:
`normalize(normalize(p)) == normalize(p)` whenever `"//"` is not a suffix
of `p`. -/
theorem normalizePath_idempotent_of_no_double_slash (p : String)
    (h : ¬ ['/', '/'] <:+ p.data) :
    normalizePath (normalizePath p) = normalizePath p := by
  unfold normalizePath
  congr 1
  exact normalizeChars_fixpoint _ (normalizeChars_head p.data)
    (normalizeChars_last p.data h)

/-- Claim C2 witness: the amended idempotence at the spec's own example
`"/a/"`. -/
theorem normalizePath_idempotent_witness :
    normalizePath (normalizePath "/a/") = normalizePath "/a/" :=
  normalizePath_idempotent_of_no_double_slash "/a/" (by decide)

/-! ## Lock admission: claim C4 -/

/-- Claim C4: `validateMessageLock` admits every message whose normalized
path carries no lock; under STRICT or EXCLUSIVE it rejects exactly on a
non-empty sender restriction differing from the message's sender or a
non-empty receiver restriction differing from the message's receiver (the
two modes are behaviorally equivalent); under ANY_SENDER it rejects
exactly on receiver mismatch; under ANY_RECEIVER exactly on sender
mismatch. -/
theorem validateMessageLock_characterization (s : RouterState) (m : Message) :
    (getAssoc s.pathLocks (normalizePath m.path) = none →
      validateMessageLock s m = true) ∧
    (∀ lock, getAssoc s.pathLocks (normalizePath m.path) = some lock →
      ((lock.mode = LockMode.STRICT ∨ lock.mode = LockMode.EXCLUSIVE) →
        (validateMessageLock s m = false ↔
          ((lock.senderID ≠ "" ∧ lock.senderID ≠ m.senderID) ∨
           (lock.receiverID ≠ "" ∧ lock.receiverID ≠ m.receiverID)))) ∧
      (lock.mode = LockMode.ANY_SENDER →
        (validateMessageLock s m = false ↔
          (lock.receiverID ≠ "" ∧ lock.receiverID ≠ m.receiverID))) ∧
      (lock.mode = LockMode.ANY_RECEIVER →
        (validateMessageLock s m = false ↔
          (lock.senderID ≠ "" ∧ lock.senderID ≠ m.senderID)))) := by
  refine ⟨fun h => validateMessageLock_of_unlocked s m h, fun lock hlock => ?_⟩
  cases lock with
  | mk lp lmode lsid lsown lrid lrown lfin =>
    cases lmode with
    | STRICT =>
      refine ⟨fun _ => ?_, fun hm => ?_, fun hm => ?_⟩
      case refine_2 => simp at hm
      case refine_3 => simp at hm
      by_cases hA : (lsid : String) ≠ "" ∧ lsid ≠ m.senderID <;>
        by_cases hB : (lrid : String) ≠ "" ∧ lrid ≠ m.receiverID <;>
        simp [validateMessageLock, hlock, hA, hB]
    | EXCLUSIVE =>
      refine ⟨fun _ => ?_, fun hm => ?_, fun hm => ?_⟩
      case refine_2 => simp at hm
      case refine_3 => simp at hm
      by_cases hA : (lsid : String) ≠ "" ∧ lsid ≠ m.senderID <;>
        by_cases hB : (lrid : String) ≠ "" ∧ lrid ≠ m.receiverID <;>
        simp [validateMessageLock, hlock, hA, hB]
    | ANY_SENDER =>
      refine ⟨fun hm => ?_, fun _ => ?_, fun hm => ?_⟩
      case refine_1 => simp at hm
      case refine_3 => simp at hm
      by_cases hB : (lrid : String) ≠ "" ∧ lrid ≠ m.receiverID <;>
        simp [validateMessageLock, hlock, hB]
    | ANY_RECEIVER =>
      refine ⟨fun hm => ?_, fun hm => ?_, fun _ => ?_⟩
      case refine_1 => simp at hm
      case refine_2 => simp at hm
      by_cases hA : (lsid : String) ≠ "" ∧ lsid ≠ m.senderID <;>
        simp [validateMessageLock, hlock, hA]

/-! ## Unlock failure: claim C5 -/

/-- Claim C5: `unlockPath` returns `false` exactly when no lock exists on
the normalized path, the lock is finalized, or the given owner matches
neither `senderOwner` nor `receiverOwner`; every failure leaves the state
(lock table and all queues) completely unchanged and replays nothing. -/
theorem unlockPath_failure_characterization (s : RouterState) (p o : String) :
    ((unlockPath s p o).1 = false ↔
      getAssoc s.pathLocks (normalizePath p) = none ∨
      ∃ lock, getAssoc s.pathLocks (normalizePath p) = some lock ∧
        (lock.finalized = true ∨
          (lock.senderOwner ≠ o ∧ lock.receiverOwner ≠ o))) ∧
    ((unlockPath s p o).1 = false →
      (unlockPath s p o).2.1 = s ∧ (unlockPath s p o).2.2 = []) := by
  cases hlock : getAssoc s.pathLocks (normalizePath p) with
  | none =>
    refine ⟨?_, fun _ => ?_⟩ <;> simp [unlockPath, hlock]
  | some lock =>
    by_cases hfin : lock.finalized = true
    · refine ⟨?_, fun _ => ?_⟩ <;> simp [unlockPath, hlock, hfin]
    · have hfinf : lock.finalized = false := Bool.eq_false_iff.mpr hfin
      by_cases hown : lock.senderOwner ≠ o ∧ lock.receiverOwner ≠ o
      · refine ⟨?_, fun _ => ?_⟩ <;> simp [unlockPath, hlock, hfinf, hown]
      · refine ⟨?_, fun hfalse => ?_⟩
        · simp [unlockPath, hlock, hfinf, hown]
        · exfalso
          have htrue : (unlockPath s p o).1 = true := by
            simp [unlockPath, hlock, hfinf, hown]
          rw [htrue] at hfalse
          simp at hfalse

/-! ## Unlock success and replay: claim C3 -/

theorem pmi_unlocked (s : RouterState) (m : Message) (sp : String)
    (h : getAssoc s.pathLocks (normalizePath m.path) = none) :
    (processMessageImmediate s m sp).1 = true ∧
    (processMessageImmediate s m sp).2 =
      fanOut s.listeners m (getBubblingPaths m.path) := by
  unfold processMessageImmediate
  rw [validateMessageLock_of_unlocked s m h]
  simp [h]

theorem drainLoop_eq_flatMap (s : RouterState) (l : List QueuedMsg) :
    drainLoop s l =
      l.flatMap (fun qm => (processMessageImmediate s qm.message qm.senderPath).2) := by
  induction l with
  | nil => rfl
  | cons hd tl ih => simp [drainLoop, ih]

/-- Claim C3: when `unlockPath` succeeds, the lock record on the
normalized path is removed before replay begins (the replay runs against
the lock-free state `s1`), every entry of the path's deferred queue is
replayed through `processMessageImmediate` in FIFO order (the trace is
the in-order concatenation of the per-entry traces), the path's queue
entry is removed from the final state, and each replayed message whose
path is the unlocked path passes the lock check — it is dispatched as an
unlocked send. -/
theorem unlockPath_success_spec (s : RouterState) (p o : String)
    (h : (unlockPath s p o).1 = true) :
    let np := normalizePath p
    let s1 : RouterState := { s with pathLocks := delAssoc s.pathLocks np }
    let q := (getAssoc s.lockedPathQueues np).getD []
    getAssoc s1.pathLocks np = none ∧
    (unlockPath s p o).2.2 = drainLoop s1 q ∧
    drainLoop s1 q =
      q.flatMap (fun qm => (processMessageImmediate s1 qm.message qm.senderPath).2) ∧
    (unlockPath s p o).2.1 =
      { s1 with lockedPathQueues := delAssoc s.lockedPathQueues np } ∧
    getAssoc ((unlockPath s p o).2.1).lockedPathQueues np = none ∧
    (∀ qm ∈ q, normalizePath qm.message.path = np →
      (processMessageImmediate s1 qm.message qm.senderPath).1 = true) := by
  intro np s1 q
  cases hlock : getAssoc s.pathLocks np with
  | none =>
    exfalso
    have : (unlockPath s p o).1 = false := by simp [unlockPath, hlock]
    rw [this] at h
    simp at h
  | some lock =>
    by_cases hfin : lock.finalized = true
    · exfalso
      have : (unlockPath s p o).1 = false := by simp [unlockPath, hlock, hfin]
      rw [this] at h
      simp at h
    · have hfinf : lock.finalized = false := Bool.eq_false_iff.mpr hfin
      by_cases hown : lock.senderOwner ≠ o ∧ lock.receiverOwner ≠ o
      · exfalso
        have : (unlockPath s p o).1 = false := by
          simp [unlockPath, hlock, hfinf, hown]
        rw [this] at h
        simp at h
      · have hdel : getAssoc s1.pathLocks np = none :=
          getAssoc_delAssoc_self s.pathLocks np
        refine ⟨hdel, ?_, drainLoop_eq_flatMap s1 q, ?_, ?_, ?_⟩
        · simp [unlockPath, hlock, hfinf, hown, np, s1, q]
        · simp [unlockPath, hlock, hfinf, hown, np, s1, q]
        · have hstate : (unlockPath s p o).2.1 =
              { s1 with lockedPathQueues := delAssoc s.lockedPathQueues np } := by
            simp [unlockPath, hlock, hfinf, hown, np, s1, q]
          rw [hstate]
          exact getAssoc_delAssoc_self s.lockedPathQueues np
        · intro qm _ hnorm
          have hul : getAssoc s1.pathLocks (normalizePath qm.message.path) = none := by
            rw [hnorm]
            exact hdel
          exact (pmi_unlocked s1 qm.message qm.senderPath hul).1

/-- A concrete router used to instantiate claim C3: a listener with id 1
on `/x`, a STRICT lock on `/x` by owner `O` restricted to sender `S` and
receiver `1`, and two messages queued behind the lock in order. -/
def C3state : RouterState :=
  (sendMessage (sendMessage (lockPath (addListener initialRouter "/x").2 "/x"
    LockMode.STRICT "O" "S" "1").2 "/x" "d1" "S" "1").2.1 "/x" "d2" "S" "1").2.1

/-- Claim C3 witness: unlocking `/x` by its owner on the concrete state
succeeds, and the spec's consequences hold there. -/
theorem unlockPath_success_witness :
    (let np := normalizePath "/x"
     let s1 : RouterState :=
       { C3state with pathLocks := delAssoc C3state.pathLocks np }
     let q := (getAssoc C3state.lockedPathQueues np).getD []
     getAssoc s1.pathLocks np = none ∧
     (unlockPath C3state "/x" "O").2.2 = drainLoop s1 q ∧
     drainLoop s1 q =
       q.flatMap (fun qm => (processMessageImmediate s1 qm.message qm.senderPath).2) ∧
     (unlockPath C3state "/x" "O").2.1 =
       { s1 with lockedPathQueues := delAssoc C3state.lockedPathQueues np } ∧
     getAssoc ((unlockPath C3state "/x" "O").2.1).lockedPathQueues np = none ∧
     (∀ qm ∈ q, normalizePath qm.message.path = np →
       (processMessageImmediate s1 qm.message qm.senderPath).1 = true)) :=
  unlockPath_success_spec C3state "/x" "O" (by decide)

/-! ## Frame lemmas: which operations leave `pathLocks` untouched -/

theorem removeListener_pathLocks (s : RouterState) (id : Nat) :
    ((removeListener s id).2).pathLocks = s.pathLocks := by
  unfold removeListener
  split <;> rfl

theorem removeListeners_foldl_pathLocks (ids : List Nat) :
    ∀ acc : Nat × RouterState,
    ((ids.foldl (fun acc id =>
      let r := removeListener acc.2 id
      (acc.1 + (if r.1 then 1 else 0), r.2)) acc).2).pathLocks =
      acc.2.pathLocks := by
  induction ids with
  | nil => intro acc; rfl
  | cons hd tl ih =>
    intro acc
    rw [List.foldl_cons, ih]
    exact removeListener_pathLocks acc.2 hd

theorem removeListeners_pathLocks (s : RouterState) (ids : List Nat) :
    ((removeListeners s ids).2).pathLocks = s.pathLocks := by
  unfold removeListeners
  exact removeListeners_foldl_pathLocks ids (0, s)

theorem setListenerActive_pathLocks (s : RouterState) (id : Nat) (a : Bool) :
    ((setListenerActive s id a).2).pathLocks = s.pathLocks := by
  unfold setListenerActive
  split <;> rfl

theorem sendMessage_pathLocks (s : RouterState) (p d sid rid : String)
    (qIL : Bool) :
    ((sendMessage s p d sid rid qIL).2.1).pathLocks = s.pathLocks := by
  unfold sendMessage
  dsimp only
  split
  · split <;> rfl
  · rfl

theorem lockPathSet_pathLocks (s : RouterState) (np : String)
    (mode : LockMode) (o sid rid : String) :
    (lockPathSet s np mode o sid rid).pathLocks =
      setAssoc s.pathLocks np (lockRecord np mode o sid rid) := by
  unfold lockPathSet
  dsimp only
  split <;> rfl

/-- A path whose lock table entry exists and is finalized. -/
def FinalizedAt (s : RouterState) (k : String) : Prop :=
  ∃ lk : Lock, getAssoc s.pathLocks k = some lk ∧ lk.finalized = true

theorem lockPath_blocked (s : RouterState) (p : String) (mode : LockMode)
    (o sid rid : String) (h : FinalizedAt s (normalizePath p)) :
    lockPath s p mode o sid rid = (false, s) := by
  obtain ⟨lk, hget, hfin⟩ := h
  simp [lockPath, hget, hfin]

theorem unlockPath_blocked (s : RouterState) (p o : String)
    (h : FinalizedAt s (normalizePath p)) :
    unlockPath s p o = (false, s, []) := by
  obtain ⟨lk, hget, hfin⟩ := h
  simp [unlockPath, hget, hfin]

theorem lockPath_state (s : RouterState) (p : String) (mode : LockMode)
    (o sid rid : String) :
    (lockPath s p mode o sid rid).2 = s ∨
    (lockPath s p mode o sid rid).2 =
      lockPathSet s (normalizePath p) mode o sid rid := by
  unfold lockPath
  cases hget : getAssoc s.pathLocks (normalizePath p) with
  | none => right; simp [hget]
  | some e =>
    by_cases hfin : e.finalized = true
    · left; simp [hget, hfin]
    · have hfinf : e.finalized = false := Bool.eq_false_iff.mpr hfin
      right; simp [hget, hfinf]

theorem lockPath_getAssoc_ne (s : RouterState) (p : String) (mode : LockMode)
    (o sid rid k : String) (hk : k ≠ normalizePath p) :
    getAssoc ((lockPath s p mode o sid rid).2).pathLocks k =
      getAssoc s.pathLocks k := by
  rcases lockPath_state s p mode o sid rid with hst | hst <;> rw [hst]
  · rw [lockPathSet_pathLocks]
    exact getAssoc_setAssoc_ne _ _ _ _ hk

theorem unlockPath_state (s : RouterState) (p o : String) :
    (unlockPath s p o).2.1 = s ∨
    (unlockPath s p o).2.1 =
      { s with pathLocks := delAssoc s.pathLocks (normalizePath p)
               lockedPathQueues := delAssoc s.lockedPathQueues (normalizePath p) } := by
  unfold unlockPath
  cases hget : getAssoc s.pathLocks (normalizePath p) with
  | none => left; simp [hget]
  | some lock =>
    by_cases hfin : lock.finalized = true
    · left; simp [hget, hfin]
    · have hfinf : lock.finalized = false := Bool.eq_false_iff.mpr hfin
      by_cases hown : lock.senderOwner ≠ o ∧ lock.receiverOwner ≠ o
      · left; simp [hget, hfinf, hown]
      · right; simp [hget, hfinf, hown]

theorem unlockPath_getAssoc_ne (s : RouterState) (p o k : String)
    (hk : k ≠ normalizePath p) :
    getAssoc ((unlockPath s p o).2.1).pathLocks k =
      getAssoc s.pathLocks k := by
  rcases unlockPath_state s p o with hst | hst <;> rw [hst]
  · exact getAssoc_delAssoc_ne _ _ _ hk

theorem finalizeLock_state (s : RouterState) (p o : String) :
    (finalizeLock s p o).2 = s ∨
    ∃ lock, getAssoc s.pathLocks (normalizePath p) = some lock ∧
      (finalizeLock s p o).2 =
        { s with pathLocks := setAssoc s.pathLocks (normalizePath p) { lock with finalized := true } } := by
  unfold finalizeLock
  cases hget : getAssoc s.pathLocks (normalizePath p) with
  | none => left; simp [hget]
  | some lock =>
    by_cases hown : lock.senderOwner ≠ o ∧ lock.receiverOwner ≠ o
    · left; simp [hget, hown]
    · right; exact ⟨lock, rfl, by simp [hget, hown]⟩

theorem finalizeLock_preserves_finalizedAt (s : RouterState) (p o k : String)
    (h : FinalizedAt s k) : FinalizedAt ((finalizeLock s p o).2) k := by
  obtain ⟨lk, hget, hfin⟩ := h
  rcases finalizeLock_state s p o with hst | ⟨lock, hget2, hst⟩
  · rw [hst]; exact ⟨lk, hget, hfin⟩
  · rw [hst]
    by_cases hk : k = normalizePath p
    · subst hk
      exact ⟨{ lock with finalized := true },
        getAssoc_setAssoc_self s.pathLocks _ _, rfl⟩
    · refine ⟨lk, ?_, hfin⟩
      show getAssoc (setAssoc s.pathLocks (normalizePath p)
        { lock with finalized := true }) k = some lk
      rw [getAssoc_setAssoc_ne _ _ _ _ hk]
      exact hget

theorem finalizedAt_applyOp (s : RouterState) (k : String) (op : RouterOp)
    (hop : op ≠ RouterOp.clearLocks) (h : FinalizedAt s k) :
    FinalizedAt (applyOp s op) k := by
  obtain ⟨lk, hget, hfin⟩ := h
  cases op with
  | addListener p o => exact ⟨lk, hget, hfin⟩
  | removeListener id =>
    exact ⟨lk, by rw [applyOp, removeListener_pathLocks]; exact hget, hfin⟩
  | removeListeners ids =>
    exact ⟨lk, by rw [applyOp, removeListeners_pathLocks]; exact hget, hfin⟩
  | removeListenersByPath p => exact ⟨lk, hget, hfin⟩
  | removeListenersByOwner o => exact ⟨lk, hget, hfin⟩
  | setListenerActive id a =>
    exact ⟨lk, by rw [applyOp, setListenerActive_pathLocks]; exact hget, hfin⟩
  | lockPath p mode o sid rid =>
    by_cases hk : k = normalizePath p
    · subst hk
      have hb := lockPath_blocked s p mode o sid rid ⟨lk, hget, hfin⟩
      rw [applyOp, hb]
      exact ⟨lk, hget, hfin⟩
    · exact ⟨lk, by
        rw [applyOp, lockPath_getAssoc_ne s p mode o sid rid k hk]; exact hget,
        hfin⟩
  | unlockPath p o =>
    by_cases hk : k = normalizePath p
    · subst hk
      have hb := unlockPath_blocked s p o ⟨lk, hget, hfin⟩
      rw [applyOp, hb]
      exact ⟨lk, hget, hfin⟩
    · exact ⟨lk, by
        rw [applyOp, unlockPath_getAssoc_ne s p o k hk]; exact hget, hfin⟩
  | finalizeLock p o =>
    exact finalizeLock_preserves_finalizedAt s p o k ⟨lk, hget, hfin⟩
  | sendMessage p d sid rid qIL =>
    exact ⟨lk, by rw [applyOp, sendMessage_pathLocks]; exact hget, hfin⟩
  | queueMessage p d sid rid pr => exact ⟨lk, hget, hfin⟩
  | processQueue => exact ⟨lk, hget, hfin⟩
  | clearListeners => exact ⟨lk, hget, hfin⟩
  | clearQueue => exact ⟨lk, hget, hfin⟩
  | clearLocks => exact absurd rfl hop

theorem finalizedAt_foldl (s : RouterState) (k : String)
    (ops : List RouterOp) (hops : RouterOp.clearLocks ∉ ops)
    (h : FinalizedAt s k) : FinalizedAt (ops.foldl applyOp s) k := by
  induction ops generalizing s with
  | nil => exact h
  | cons hd tl ih =>
    rw [List.foldl_cons]
    refine ih _ (fun hmem => hops (List.mem_cons_of_mem _ hmem)) ?_
    exact finalizedAt_applyOp s k hd
      (fun he => hops (he ▸ List.mem_cons_self _ _)) h

/-- Claim C6: finalization is terminal.  Once `finalizeLock` has
succeeded on a path, then after any sequence of public operations that
does not include `clearLocks`, the path still carries a finalized lock,
and every `lockPath` and `unlockPath` call on that path returns `false`
and leaves the state unchanged. -/
theorem finalizeLock_terminal (s0 : RouterState) (p o0 : String)
    (hsucc : (finalizeLock s0 p o0).1 = true)
    (ops : List RouterOp) (hops : RouterOp.clearLocks ∉ ops) :
    let s' := ops.foldl applyOp (finalizeLock s0 p o0).2
    FinalizedAt s' (normalizePath p) ∧
    (∀ (mode : LockMode) (o sid rid : String),
      lockPath s' p mode o sid rid = (false, s')) ∧
    (∀ o : String, unlockPath s' p o = (false, s', [])) := by
  intro s'
  have hstart : FinalizedAt (finalizeLock s0 p o0).2 (normalizePath p) := by
    cases hget : getAssoc s0.pathLocks (normalizePath p) with
    | none =>
      exfalso
      have : (finalizeLock s0 p o0).1 = false := by simp [finalizeLock, hget]
      rw [this] at hsucc
      simp at hsucc
    | some lock =>
      by_cases hown : lock.senderOwner ≠ o0 ∧ lock.receiverOwner ≠ o0
      · exfalso
        have : (finalizeLock s0 p o0).1 = false := by
          simp [finalizeLock, hget, hown]
        rw [this] at hsucc
        simp at hsucc
      · have hst : (finalizeLock s0 p o0).2 =
            { s0 with pathLocks := setAssoc s0.pathLocks (normalizePath p) { lock with finalized := true } } := by
          simp [finalizeLock, hget, hown]
        rw [hst]
        exact ⟨{ lock with finalized := true },
          getAssoc_setAssoc_self s0.pathLocks _ _, rfl⟩
  have hfin : FinalizedAt s' (normalizePath p) :=
    finalizedAt_foldl _ _ ops hops hstart
  exact ⟨hfin, fun mode o sid rid => lockPath_blocked s' p mode o sid rid hfin,
    fun o => unlockPath_blocked s' p o hfin⟩

/-- A concrete router for claim C6: a STRICT lock on `/f` by owner `O`
with a sender restriction, so `senderOwner = "O"`. -/
def C6state : RouterState :=
  (lockPath initialRouter "/f" LockMode.STRICT "O" "A" "B").2

/-- Claim C6 witness: after finalizing the lock on `/f`, a sequence of
re-lock, send, unlock and queue operations leaves the finalized lock in
place, and `lockPath` / `unlockPath` on `/f` keep failing. -/
theorem finalizeLock_terminal_witness :
    (let s' := [RouterOp.lockPath "/f" LockMode.EXCLUSIVE "O" "A" "B",
        RouterOp.sendMessage "/f" "d" "A" "B" true,
        RouterOp.unlockPath "/f" "O",
        RouterOp.queueMessage "/f" "d" "A" "B" 3,
        RouterOp.processQueue].foldl applyOp (finalizeLock C6state "/f" "O").2
     FinalizedAt s' (normalizePath "/f") ∧
     (∀ (mode : LockMode) (o sid rid : String),
       lockPath s' "/f" mode o sid rid = (false, s')) ∧
     (∀ o : String, unlockPath s' "/f" o = (false, s', []))) :=
  finalizeLock_terminal C6state "/f" "O" (by decide)
    [RouterOp.lockPath "/f" LockMode.EXCLUSIVE "O" "A" "B",
     RouterOp.sendMessage "/f" "d" "A" "B" true,
     RouterOp.unlockPath "/f" "O",
     RouterOp.queueMessage "/f" "d" "A" "B" 3,
     RouterOp.processQueue] (by decide)

/-! ## Global queue capacity: claim C7 -/

theorem removeListener_messageQueue (s : RouterState) (id : Nat) :
    ((removeListener s id).2).messageQueue = s.messageQueue := by
  unfold removeListener
  split <;> rfl

theorem removeListeners_foldl_messageQueue (ids : List Nat) :
    ∀ acc : Nat × RouterState,
    ((ids.foldl (fun acc id =>
      let r := removeListener acc.2 id
      (acc.1 + (if r.1 then 1 else 0), r.2)) acc).2).messageQueue =
      acc.2.messageQueue := by
  induction ids with
  | nil => intro acc; rfl
  | cons hd tl ih =>
    intro acc
    rw [List.foldl_cons, ih]
    exact removeListener_messageQueue acc.2 hd

theorem removeListeners_messageQueue (s : RouterState) (ids : List Nat) :
    ((removeListeners s ids).2).messageQueue = s.messageQueue := by
  unfold removeListeners
  exact removeListeners_foldl_messageQueue ids (0, s)

theorem setListenerActive_messageQueue (s : RouterState) (id : Nat)
    (a : Bool) :
    ((setListenerActive s id a).2).messageQueue = s.messageQueue := by
  unfold setListenerActive
  split <;> rfl

theorem lockPathSet_messageQueue (s : RouterState) (np : String)
    (mode : LockMode) (o sid rid : String) :
    (lockPathSet s np mode o sid rid).messageQueue = s.messageQueue := by
  unfold lockPathSet
  dsimp only
  split <;> rfl

theorem lockPath_messageQueue (s : RouterState) (p : String)
    (mode : LockMode) (o sid rid : String) :
    ((lockPath s p mode o sid rid).2).messageQueue = s.messageQueue := by
  rcases lockPath_state s p mode o sid rid with hst | hst <;> rw [hst]
  · exact lockPathSet_messageQueue s _ mode o sid rid

theorem unlockPath_messageQueue (s : RouterState) (p o : String) :
    ((unlockPath s p o).2.1).messageQueue = s.messageQueue := by
  rcases unlockPath_state s p o with hst | hst <;> rw [hst]

theorem finalizeLock_messageQueue (s : RouterState) (p o : String) :
    ((finalizeLock s p o).2).messageQueue = s.messageQueue := by
  rcases finalizeLock_state s p o with hst | ⟨lock, _, hst⟩ <;> rw [hst]

theorem sendMessage_messageQueue (s : RouterState) (p d sid rid : String)
    (qIL : Bool) :
    ((sendMessage s p d sid rid qIL).2.1).messageQueue = s.messageQueue := by
  unfold sendMessage
  dsimp only
  split
  · split <;> rfl
  · rfl

theorem queueMessage_messageQueue (s : RouterState) (p d sid rid : String)
    (pr : Int) :
    (queueMessage s p d sid rid pr).2.messageQueue =
      (if MAX_QUEUE_SIZE ≤ s.messageQueue.length then s.messageQueue.drop 1
       else s.messageQueue) ++
      [⟨⟨normalizePath p, d, sid, rid, s.nextMessageId⟩, "", pr⟩] := rfl

theorem messageQueue_bounded_applyOp (s : RouterState) (op : RouterOp)
    (h : s.messageQueue.length ≤ MAX_QUEUE_SIZE) :
    (applyOp s op).messageQueue.length ≤ MAX_QUEUE_SIZE := by
  cases op with
  | addListener p o => exact h
  | removeListener id => rw [applyOp, removeListener_messageQueue]; exact h
  | removeListeners ids => rw [applyOp, removeListeners_messageQueue]; exact h
  | removeListenersByPath p => exact h
  | removeListenersByOwner o => exact h
  | setListenerActive id a =>
    rw [applyOp, setListenerActive_messageQueue]; exact h
  | lockPath p mode o sid rid => rw [applyOp, lockPath_messageQueue]; exact h
  | unlockPath p o => rw [applyOp, unlockPath_messageQueue]; exact h
  | finalizeLock p o => rw [applyOp, finalizeLock_messageQueue]; exact h
  | sendMessage p d sid rid qIL =>
    rw [applyOp, sendMessage_messageQueue]; exact h
  | queueMessage p d sid rid pr =>
    rw [applyOp, queueMessage_messageQueue, List.length_append]
    by_cases hc : MAX_QUEUE_SIZE ≤ s.messageQueue.length
    · rw [if_pos hc, List.length_drop]
      simp only [List.length_cons, List.length_nil, MAX_QUEUE_SIZE] at h hc ⊢
      omega
    · rw [if_neg hc]
      simp only [List.length_cons, List.length_nil, MAX_QUEUE_SIZE] at h hc ⊢
      omega
  | processQueue => exact Nat.zero_le _
  | clearListeners => exact h
  | clearQueue => exact Nat.zero_le _
  | clearLocks => exact h

theorem messageQueue_bounded_foldl (ops : List RouterOp) (s : RouterState)
    (h : s.messageQueue.length ≤ MAX_QUEUE_SIZE) :
    ((ops.foldl applyOp s)).messageQueue.length ≤ MAX_QUEUE_SIZE := by
  induction ops generalizing s with
  | nil => exact h
  | cons hd tl ih =>
    rw [List.foldl_cons]
    exact ih _ (messageQueue_bounded_applyOp s hd h)

/-- The router after 51 `queueMessage("/x", "")` calls on a fresh
router. -/
def step51 : RouterState :=
  (List.range 51).foldl (fun s _ => (queueMessage s "/x" "").2) initialRouter

set_option maxRecDepth 100000 in
/-- Claim C7: `queueMessage` always returns `true`; when the global
queue already holds `MAX_QUEUE_SIZE = 50` entries it first evicts the
oldest entry and then appends the new one; after 51 enqueues on a fresh
router the first-enqueued message (messageId 1) is gone, the queue holds
exactly the 50 later messages in order, and `getQueueSize` is 50; and
along every operation sequence from the initial router the global queue
size never exceeds 50. -/
theorem queueMessage_capacity_spec :
    (∀ (s : RouterState) (p d sid rid : String) (pr : Int),
      (queueMessage s p d sid rid pr).1 = true) ∧
    (∀ (s : RouterState) (p d sid rid : String) (pr : Int),
      s.messageQueue.length = MAX_QUEUE_SIZE →
      (queueMessage s p d sid rid pr).2.messageQueue =
        s.messageQueue.drop 1 ++
        [⟨⟨normalizePath p, d, sid, rid, s.nextMessageId⟩, "", pr⟩]) ∧
    (getQueueSize step51 = 50 ∧
      step51.messageQueue.map (fun q => q.message.messageId) =
        List.range' 2 50 ∧
      ∀ q ∈ step51.messageQueue, q.message.messageId ≠ 1) ∧
    (∀ ops : List RouterOp,
      getQueueSize (ops.foldl applyOp initialRouter) ≤ MAX_QUEUE_SIZE) := by
  refine ⟨fun s p d sid rid pr => rfl, ?_, ⟨?_, ?_, ?_⟩, ?_⟩
  · intro s p d sid rid pr hlen
    rw [queueMessage_messageQueue, if_pos (le_of_eq hlen.symm)]
  · decide
  · decide
  · decide
  · intro ops
    exact messageQueue_bounded_foldl ops initialRouter (by decide)

/-! ## Priority queue processing: claim C8 -/

theorem pmi_false_no_trace (s : RouterState) (m : Message) (sp : String)
    (h : (processMessageImmediate s m sp).1 = false) :
    (processMessageImmediate s m sp).2 = [] := by
  by_cases h1 : (getAssoc s.pathLocks (normalizePath m.path)).isSome = true
  · simp [processMessageImmediate, h1]
  · by_cases h2 : validateMessageLock s m = true
    · exfalso
      have : (processMessageImmediate s m sp).1 = true := by
        simp [processMessageImmediate, h1, h2]
      rw [this] at h
      simp at h
    · have h2f : validateMessageLock s m = false := Bool.eq_false_iff.mpr h2
      simp [processMessageImmediate, h1, h2f]

theorem insertDesc_perm (x : QueuedMsg) (l : List QueuedMsg) :
    (insertDesc x l).Perm (x :: l) := by
  induction l with
  | nil => exact List.Perm.refl _
  | cons y ys ih =>
    unfold insertDesc
    by_cases hc : y.priority ≤ x.priority
    · rw [if_pos hc]
    · rw [if_neg hc]
      exact (ih.cons y).trans (List.Perm.swap x y ys)

theorem sortDesc_perm (l : List QueuedMsg) : (sortDesc l).Perm l := by
  induction l with
  | nil => exact List.Perm.refl _
  | cons x xs ih =>
    unfold sortDesc
    rw [List.foldr_cons]
    exact (insertDesc_perm x _).trans (List.Perm.cons x ih)

theorem insertDesc_sorted (x : QueuedMsg) (l : List QueuedMsg)
    (h : List.Sorted (fun a b => b.priority ≤ a.priority) l) :
    List.Sorted (fun a b => b.priority ≤ a.priority) (insertDesc x l) := by
  induction l with
  | nil => simp [insertDesc]
  | cons y ys ih =>
    unfold insertDesc
    rw [List.sorted_cons] at h
    by_cases hc : y.priority ≤ x.priority
    · rw [if_pos hc]
      rw [List.sorted_cons]
      refine ⟨?_, List.sorted_cons.mpr h⟩
      intro z hz
      rcases List.mem_cons.mp hz with rfl | hzys
      · exact hc
      · exact le_trans (h.1 z hzys) hc
    · rw [if_neg hc]
      rw [List.sorted_cons]
      refine ⟨?_, ih h.2⟩
      intro z hz
      have hz2 : z ∈ x :: ys := (insertDesc_perm x ys).mem_iff.mp hz
      rcases List.mem_cons.mp hz2 with rfl | hzys
      · exact le_of_lt (lt_of_not_le hc)
      · exact h.1 z hzys

theorem sortDesc_sorted (l : List QueuedMsg) :
    List.Sorted (fun a b => b.priority ≤ a.priority) (sortDesc l) := by
  induction l with
  | nil => exact List.sorted_nil
  | cons x xs ih =>
    unfold sortDesc
    rw [List.foldr_cons]
    exact insertDesc_sorted x _ ih

theorem filter_insertDesc (k : Int) (x : QueuedMsg) (l : List QueuedMsg) :
    (insertDesc x l).filter (fun q => q.priority == k) =
      if x.priority = k then x :: l.filter (fun q => q.priority == k)
      else l.filter (fun q => q.priority == k) := by
  induction l with
  | nil =>
    by_cases hx : x.priority = k <;> simp [insertDesc, hx]
  | cons y ys ih =>
    unfold insertDesc
    by_cases hc : y.priority ≤ x.priority
    · rw [if_pos hc]
      by_cases hx : x.priority = k <;> simp [List.filter_cons, hx]
    · rw [if_neg hc]
      by_cases hx : x.priority = k
      · have hy : (y.priority == k) = false := by
          have hlt : x.priority < y.priority := lt_of_not_le hc
          simp only [beq_eq_false_iff_ne]
          omega
        simp [List.filter_cons, hy, hx, ih]
      · by_cases hy2 : (y.priority == k) = true <;>
          simp [List.filter_cons, hx, ih, hy2]

theorem sortDesc_filter (k : Int) (l : List QueuedMsg) :
    (sortDesc l).filter (fun q => q.priority == k) =
      l.filter (fun q => q.priority == k) := by
  induction l with
  | nil => rfl
  | cons x xs ih =>
    unfold sortDesc
    rw [List.foldr_cons]
    rw [filter_insertDesc]
    by_cases hx : x.priority = k
    · rw [if_pos hx]
      unfold sortDesc at ih
      rw [ih, List.filter_cons]
      simp [hx]
    · rw [if_neg hx]
      unfold sortDesc at ih
      rw [ih, List.filter_cons]
      simp [hx]

/-- Claim C8: `processQueue` dispatches the global queue's entries in
descending priority order — the dispatch list `sortDesc` of the queue is
a permutation of the queue, sorted by `≥` on priority, and for every
priority level the entries appear in their original enqueue order
(stability) — each entry passing through `processMessageImmediate`
exactly once (the trace is the in-order concatenation of the per-entry
traces); entries blocked by a lock contribute nothing and are never
re-queued; the global queue is empty afterwards; and on priorities
`[1, 5, 3]` the dispatch order is `5, 3, 1` with an empty queue after. -/
theorem processQueue_spec (s : RouterState) :
    ((processQueue s).1).messageQueue = [] ∧
    (processQueue s).2 =
      (sortDesc s.messageQueue).flatMap
        (fun qm => (processMessageImmediate s qm.message qm.senderPath).2) ∧
    (sortDesc s.messageQueue).Perm s.messageQueue ∧
    List.Sorted (fun a b => b.priority ≤ a.priority) (sortDesc s.messageQueue) ∧
    (∀ k : Int, (sortDesc s.messageQueue).filter (fun q => q.priority == k) =
      s.messageQueue.filter (fun q => q.priority == k)) ∧
    (∀ qm ∈ sortDesc s.messageQueue,
      (processMessageImmediate s qm.message qm.senderPath).1 = false →
      (processMessageImmediate s qm.message qm.senderPath).2 = []) ∧
    (let q3 := (queueMessage (queueMessage (queueMessage initialRouter
        "/a" "m1" "" "" 1).2 "/a" "m2" "" "" 5).2 "/a" "m3" "" "" 3).2
     (sortDesc q3.messageQueue).map (fun e => e.priority) = [5, 3, 1] ∧
     ((processQueue q3).1).messageQueue = []) := by
  refine ⟨rfl, drainLoop_eq_flatMap s _, sortDesc_perm _, sortDesc_sorted _,
    fun k => sortDesc_filter k _,
    fun qm _ h => pmi_false_no_trace s qm.message qm.senderPath h,
    by decide, rfl⟩

/-! ## Unrestricted locks and ownership: claim C9 -/

theorem lockPath_success_state (s : RouterState) (p : String)
    (mode : LockMode) (o sid rid : String)
    (h : (lockPath s p mode o sid rid).1 = true) :
    (lockPath s p mode o sid rid).2 =
      lockPathSet s (normalizePath p) mode o sid rid := by
  unfold lockPath at h ⊢
  cases hget : getAssoc s.pathLocks (normalizePath p) with
  | none => simp [hget]
  | some e =>
    by_cases hfin : e.finalized = true
    · exfalso
      simp [hget, hfin] at h
    · have hfinf : e.finalized = false := Bool.eq_false_iff.mpr hfin
      simp [hget, hfinf]

theorem unlockPath_fst_of_owner_mismatch (s : RouterState) (p o : String)
    (lk : Lock) (hget : getAssoc s.pathLocks (normalizePath p) = some lk)
    (hmm : lk.senderOwner ≠ o ∧ lk.receiverOwner ≠ o) :
    (unlockPath s p o).1 = false := by
  by_cases hfin : lk.finalized = true
  · simp [unlockPath, hget, hfin]
  · simp [unlockPath, hget, Bool.eq_false_iff.mpr hfin, hmm]

theorem finalizeLock_fst_of_owner_mismatch (s : RouterState) (p o : String)
    (lk : Lock) (hget : getAssoc s.pathLocks (normalizePath p) = some lk)
    (hmm : lk.senderOwner ≠ o ∧ lk.receiverOwner ≠ o) :
    (finalizeLock s p o).1 = false := by
  simp [finalizeLock, hget, hmm]

theorem unlockPath_fst_of_owner_match (s : RouterState) (p o : String)
    (lk : Lock) (hget : getAssoc s.pathLocks (normalizePath p) = some lk)
    (hfin : lk.finalized = false)
    (hm : lk.senderOwner = o ∨ lk.receiverOwner = o) :
    (unlockPath s p o).1 = true := by
  have hcond : ¬ (lk.senderOwner ≠ o ∧ lk.receiverOwner ≠ o) := by tauto
  simp [unlockPath, hget, hfin, hcond]

theorem finalizeLock_fst_of_owner_match (s : RouterState) (p o : String)
    (lk : Lock) (hget : getAssoc s.pathLocks (normalizePath p) = some lk)
    (hm : lk.senderOwner = o ∨ lk.receiverOwner = o) :
    (finalizeLock s p o).1 = true := by
  have hcond : ¬ (lk.senderOwner ≠ o ∧ lk.receiverOwner ≠ o) := by tauto
  simp [finalizeLock, hget, hcond]

/-- Claim C9: a lock created with both restriction IDs empty has
`senderOwner = ""` and `receiverOwner = ""`; `unlockPath` and
`finalizeLock` on that path then return `false` for every non-empty
`ownerID` — including the creating owner's own ID — while passing the
empty-string `ownerID` passes the ownership check (`unlockPath` and
`finalizeLock` succeed): the creator of an unrestricted lock cannot
release it under its own ID. -/
theorem unrestricted_lock_ownership (s : RouterState) (p : String)
    (mode : LockMode) (creator : String)
    (h : (lockPath s p mode creator "" "").1 = true) :
    let s' := (lockPath s p mode creator "" "").2
    (∃ lk : Lock, getAssoc s'.pathLocks (normalizePath p) = some lk ∧
      lk.senderOwner = "" ∧ lk.receiverOwner = "" ∧ lk.finalized = false) ∧
    (∀ o : String, o ≠ "" →
      (unlockPath s' p o).1 = false ∧ (finalizeLock s' p o).1 = false) ∧
    (unlockPath s' p "").1 = true ∧
    (finalizeLock s' p "").1 = true := by
  intro s'
  have hst : s' = lockPathSet s (normalizePath p) mode creator "" "" :=
    lockPath_success_state s p mode creator "" "" h
  have hrec : lockRecord (normalizePath p) mode creator "" "" =
      { path := normalizePath p, mode := mode, senderID := ""
        senderOwner := "", receiverID := "", receiverOwner := ""
        finalized := false } := by
    simp [lockRecord]
  have hget : getAssoc s'.pathLocks (normalizePath p) =
      some (lockRecord (normalizePath p) mode creator "" "") := by
    rw [hst, lockPathSet_pathLocks]
    exact getAssoc_setAssoc_self _ _ _
  rw [hrec] at hget
  refine ⟨⟨_, hget, rfl, rfl, rfl⟩, fun o ho => ?_, ?_, ?_⟩
  · constructor
    · exact unlockPath_fst_of_owner_mismatch s' p o _ hget
        ⟨fun hc => ho hc.symm, fun hc => ho hc.symm⟩
    · exact finalizeLock_fst_of_owner_mismatch s' p o _ hget
        ⟨fun hc => ho hc.symm, fun hc => ho hc.symm⟩
  · exact unlockPath_fst_of_owner_match s' p "" _ hget rfl (Or.inl rfl)
  · exact finalizeLock_fst_of_owner_match s' p "" _ hget (Or.inl rfl)

/-- Claim C9 witness: the unrestricted STRICT lock on `/u` created by
`creator` on a fresh router. -/
theorem unrestricted_lock_ownership_witness :
    (let s' := (lockPath initialRouter "/u" LockMode.STRICT "creator" "" "").2
     (∃ lk : Lock, getAssoc s'.pathLocks (normalizePath "/u") = some lk ∧
       lk.senderOwner = "" ∧ lk.receiverOwner = "" ∧ lk.finalized = false) ∧
     (∀ o : String, o ≠ "" →
       (unlockPath s' "/u" o).1 = false ∧ (finalizeLock s' "/u" o).1 = false) ∧
     (unlockPath s' "/u" "").1 = true ∧
     (finalizeLock s' "/u" "").1 = true) :=
  unrestricted_lock_ownership initialRouter "/u" LockMode.STRICT "creator"
    (by decide)

/-! ## Ancestor locks and descendant sends: claim C10 -/

theorem foldl_append_eq_flatMap {α β : Type} (f : α → List β) :
    ∀ (l : List α) (init : List β),
    l.foldl (fun acc x => acc ++ f x) init = init ++ l.flatMap f := by
  intro l
  induction l with
  | nil => intro init; simp
  | cons hd tl ih =>
    intro init
    rw [List.foldl_cons, ih, List.flatMap_cons, List.append_assoc]

theorem fanOut_eq_flatMap (listeners : List Listener) (m : Message)
    (tps : List String) :
    fanOut listeners m tps = tps.flatMap (fun tp =>
      listeners.filterMap (fun listener =>
        if listener.path = tp ∧ listener.active then
          if m.receiverID ≠ "" ∧ toString listener.id ≠ m.receiverID then none
          else some ⟨listener.id, m, tp⟩
        else none)) := by
  unfold fanOut
  rw [foldl_append_eq_flatMap]
  rfl

theorem fanOut_mem (listeners : List Listener) (m : Message)
    (tps : List String) (tp : String) (htp : tp ∈ tps) (l : Listener)
    (hl : l ∈ listeners) (hpath : l.path = tp) (hact : l.active = true)
    (hrid : m.receiverID = "") :
    (⟨l.id, m, tp⟩ : Delivery) ∈ fanOut listeners m tps := by
  rw [fanOut_eq_flatMap]
  refine List.mem_flatMap.mpr ⟨tp, htp, ?_⟩
  refine List.mem_filterMap.mpr ⟨l, hl, ?_⟩
  rw [if_pos ⟨hpath, hact⟩, if_neg (fun hc => hc.1 hrid)]

/-- Claim C10 counterexample: the normalized path `"/a/"` of the send
path `"a//"` carries no lock, yet `sendMessage` neither dispatches (it
returns `false`) nor delivers anything, because immediate dispatch
re-normalizes the path to the locked proper ancestor `"/a"` — so a lock
on an ancestor can block a send addressed to a descendant path. -/
theorem ancestor_lock_blocks_descendant_send :
    (let s := (lockPath ((addListener initialRouter "/a" "m").2) "/a"
        LockMode.STRICT "O" "" "").2
     getAssoc s.pathLocks (normalizePath "a//") = none ∧
     (sendMessage s "a//" "d" "" "" true).1 = false ∧
     (sendMessage s "a//" "d" "" "" true).2.2 = []) := by
  decide

/-- Claim C10 (amended): for a send path whose normalization is stable
(`normalize(normalize p) = normalize p`), lock admission consults only
the lock on the message's own normalized path: if `normalize p` is
unlocked, `sendMessage` dispatches immediately (returns `true`), changes
nothing but the message counter (so nothing is queued), and its delivery
trace fans out over the whole bubble chain — every active listener on
every ancestor fires for a broadcast send — no matter which other paths
(in particular proper ancestors, in any mode) are locked. -/
theorem sendMessage_ancestor_locks_irrelevant (s : RouterState)
    (p d sid rid : String) (qIL : Bool)
    (hstable : normalizePath (normalizePath p) = normalizePath p)
    (h : getAssoc s.pathLocks (normalizePath p) = none) :
    let msg : Message := ⟨normalizePath p, d, sid, rid, s.nextMessageId⟩
    (sendMessage s p d sid rid qIL).1 = true ∧
    (sendMessage s p d sid rid qIL).2.1 =
      { s with nextMessageId := s.nextMessageId + 1 } ∧
    (sendMessage s p d sid rid qIL).2.2 =
      fanOut s.listeners msg (getBubblingPaths p) ∧
    (rid = "" → ∀ tp ∈ getBubblingPaths p, ∀ l ∈ s.listeners,
      l.path = tp → l.active = true →
      (⟨l.id, msg, tp⟩ : Delivery) ∈ (sendMessage s p d sid rid qIL).2.2) := by
  intro msg
  have hbub : getBubblingPaths (normalizePath p) = getBubblingPaths p := by
    unfold getBubblingPaths
    rw [hstable]
  have hmsg0 : getAssoc ({ s with nextMessageId := s.nextMessageId + 1 }
      : RouterState).pathLocks (normalizePath msg.path) = none := by
    show getAssoc s.pathLocks (normalizePath (normalizePath p)) = none
    rw [hstable]
    exact h
  have hpmi := pmi_unlocked { s with nextMessageId := s.nextMessageId + 1 }
    msg "" hmsg0
  have hsend : sendMessage s p d sid rid qIL =
      ((processMessageImmediate
          { s with nextMessageId := s.nextMessageId + 1 } msg "").1,
        { s with nextMessageId := s.nextMessageId + 1 },
        (processMessageImmediate
          { s with nextMessageId := s.nextMessageId + 1 } msg "").2) := by
    unfold sendMessage
    dsimp only
    rw [if_neg (by rw [show ({ s with nextMessageId := s.nextMessageId + 1 }
      : RouterState).pathLocks = s.pathLocks from rfl] at hmsg0 ⊢; simp [h])]
  rw [hsend]
  refine ⟨hpmi.1, rfl, ?_, ?_⟩
  · rw [hpmi.2]
    show fanOut s.listeners msg (getBubblingPaths msg.path) = _
    show fanOut s.listeners msg (getBubblingPaths (normalizePath p)) = _
    rw [hbub]
  · intro hrid tp htp l hl hpath hact
    rw [hpmi.2]
    show (⟨l.id, msg, tp⟩ : Delivery) ∈
      fanOut s.listeners msg (getBubblingPaths (normalizePath p))
    rw [hbub]
    exact fanOut_mem s.listeners msg (getBubblingPaths p) tp htp l hl
      hpath hact hrid

/-- A concrete router for claim C10: a listener on `/sensors` and an
EXCLUSIVE lock on `/sensors` — a proper ancestor of the send path
`/sensors/temp`. -/
def C10state : RouterState :=
  (lockPath ((addListener initialRouter "/sensors" "m").2) "/sensors"
    LockMode.EXCLUSIVE "own" "s1" "r1").2

/-- Claim C10 witness: the broadcast send to `/sensors/temp` on
`C10state` dispatches immediately and bubbles to the listener on the
locked ancestor `/sensors`. -/
theorem sendMessage_ancestor_locks_irrelevant_witness :
    (let msg : Message :=
       ⟨normalizePath "/sensors/temp", "v", "", "", C10state.nextMessageId⟩
     (sendMessage C10state "/sensors/temp" "v" "" "" true).1 = true ∧
     (sendMessage C10state "/sensors/temp" "v" "" "" true).2.1 =
       { C10state with nextMessageId := C10state.nextMessageId + 1 } ∧
     (sendMessage C10state "/sensors/temp" "v" "" "" true).2.2 =
       fanOut C10state.listeners msg (getBubblingPaths "/sensors/temp") ∧
     (("" : String) = "" → ∀ tp ∈ getBubblingPaths "/sensors/temp",
       ∀ l ∈ C10state.listeners, l.path = tp → l.active = true →
       (⟨l.id, msg, tp⟩ : Delivery) ∈
         (sendMessage C10state "/sensors/temp" "v" "" "" true).2.2)) :=
  sendMessage_ancestor_locks_irrelevant C10state "/sensors/temp" "v" "" ""
    true (by decide) (by decide)

end MessageRouter
